import Mathlib

/-!
Verification model of the ai_recruiter résumé indexing and matching engine.

The definitions below are shallow embeddings of the Python source:
- `backend/services/resume_parser.py` (field extraction over raw text),
- `backend/services/faiss_service.py` (vector index: append, batch append,
  search, delete, rebuild, initialization from disk),
- `backend/services/embedding_service.py` (cosine similarity).

Text is modelled as `List Char`; the handful of regular expressions the
parser uses are embedded as explicit matchers with Python `re` semantics
(leftmost match, greedy quantifiers with backtracking where the pattern
needs it, `findall` returning group captures).  Machine floats are
idealised as real numbers.
-/

namespace AiRecruiter

/-! ## Text / regex primitives (Python `re` semantics for the patterns used) -/

/-- Python `\s` character class (ASCII range, as used by `re` on these texts). -/
def pyIsSpace (c : Char) : Bool :=
  c = ' ' || c = '\t' || c = '\n' || c = '\r' || c = '\x0b' || c = '\x0c'

/-- Value of a digit run, as `int()` of the captured digits. -/
def digitsToNat (ds : List Char) : Nat :=
  ds.foldl (fun n c => n * 10 + (c.toNat - 48)) 0

/-- Case-insensitive literal match (pattern chars given lowercase); returns
the remaining input on success.  Embeds a fixed-word piece of a pattern
compiled with `re.IGNORECASE`. -/
def litCI : List Char → List Char → Option (List Char)
  | [], cs => some cs
  | _ :: _, [] => none
  | p :: ps, c :: cs => if c.toLower = p then litCI ps cs else none

/-- Optional single character, case-insensitive (`x?` in the pattern). -/
def optCharCI (p : Char) : List Char → List Char
  | [] => []
  | c :: cs => if c.toLower = p then cs else c :: cs

/-- Pattern `(\d+)\+?\s*years?\s*(?:of\s*)?experience` at the current position
(`resume_parser.py` line 221).  Returns the numeric capture and the rest of
the input after the full match. -/
def expPat1 (cs : List Char) : Option (Nat × List Char) :=
  let ds := cs.takeWhile Char.isDigit
  if ds.isEmpty then none else
    let r1 := cs.dropWhile Char.isDigit
    let r2 := match r1 with
      | '+' :: t => t
      | _ => r1
    let r3 := r2.dropWhile pyIsSpace
    match litCI ("year".toList) r3 with
    | none => none
    | some r4 =>
      let r6 := (optCharCI 's' r4).dropWhile pyIsSpace
      match (litCI ("of".toList) r6).bind
          (fun r7 => litCI ("experience".toList) (r7.dropWhile pyIsSpace)) with
      | some r8 => some (digitsToNat ds, r8)
      | none =>
        match litCI ("experience".toList) r6 with
        | some r8 => some (digitsToNat ds, r8)
        | none => none

/-- Pattern `(\d+)\+?\s*years?\s*in` (`resume_parser.py` line 222). -/
def expPat2 (cs : List Char) : Option (Nat × List Char) :=
  let ds := cs.takeWhile Char.isDigit
  if ds.isEmpty then none else
    let r1 := cs.dropWhile Char.isDigit
    let r2 := match r1 with
      | '+' :: t => t
      | _ => r1
    let r3 := r2.dropWhile pyIsSpace
    match litCI ("year".toList) r3 with
    | none => none
    | some r4 =>
      let r5 := (optCharCI 's' r4).dropWhile pyIsSpace
      (litCI ("in".toList) r5).map (fun r6 => (digitsToNat ds, r6))

/-- Pattern `over\s*(\d+)\s*years?` (`resume_parser.py` line 223). -/
def expPat3 (cs : List Char) : Option (Nat × List Char) :=
  match litCI ("over".toList) cs with
  | none => none
  | some r1 =>
    let r2 := r1.dropWhile pyIsSpace
    let ds := r2.takeWhile Char.isDigit
    if ds.isEmpty then none else
      let r3 := (r2.dropWhile Char.isDigit).dropWhile pyIsSpace
      (litCI ("year".toList) r3).map (fun r4 => (digitsToNat ds, optCharCI 's' r4))

/-- Pattern `more\s*than\s*(\d+)\s*years?` (`resume_parser.py` line 224). -/
def expPat4 (cs : List Char) : Option (Nat × List Char) :=
  match litCI ("more".toList) cs with
  | none => none
  | some r1 =>
    match litCI ("than".toList) (r1.dropWhile pyIsSpace) with
    | none => none
    | some r2 =>
      let r3 := r2.dropWhile pyIsSpace
      let ds := r3.takeWhile Char.isDigit
      if ds.isEmpty then none else
        let r4 := (r3.dropWhile Char.isDigit).dropWhile pyIsSpace
        (litCI ("year".toList) r4).map (fun r5 => (digitsToNat ds, optCharCI 's' r5))

/-- Scanning loop of `re.findall`: try the pattern at each position, on a
match emit the capture and continue after the matched text, otherwise
advance one character.  Fuel equals the text length; every pattern embedded
here consumes at least one character per match. -/
def findAllAux {α : Type} (p : List Char → Option (α × List Char)) :
    Nat → List Char → List α
  | 0, _ => []
  | _ + 1, [] => []
  | fuel + 1, c :: rest =>
    match p (c :: rest) with
    | some (a, rest2) => a :: findAllAux p fuel rest2
    | none => findAllAux p fuel rest

/-- `re.findall(pattern, text)` for one of the embedded patterns. -/
def findAll {α : Type} (p : List Char → Option (α × List Char)) (cs : List Char) : List α :=
  findAllAux p cs.length cs

/-- Python `max` over a nonempty list of naturals (guarded by nonemptiness
at every use site, matching `max([int(m) for m in matches])`). -/
def maxList (l : List Nat) : Nat := l.foldl max 0

/-- Embedding of `ResumeParser._extract_experience_years`
(`resume_parser.py` lines 217-235): the four patterns are tried in order;
the first with any match anywhere in the text yields the maximum of its
captures; otherwise the result is `none`. -/
def extract_experience_years (text : List Char) : Option Nat :=
  match findAll expPat1 text with
  | [] =>
    match findAll expPat2 text with
    | [] =>
      match findAll expPat3 text with
      | [] =>
        match findAll expPat4 text with
        | [] => none
        | ms => some (maxList ms)
      | ms => some (maxList ms)
    | ms => some (maxList ms)
  | ms => some (maxList ms)

/-- Modelled from the spec: "collect all numeric captures across all
patterns and report the maximum; absence of any match yields no value".
This definition follows the spec sentence word for word and exists only to
be compared against `extract_experience_years`, which embeds the source. -/
def specExperienceAllPatternsMax (text : List Char) : Option Nat :=
  match findAll expPat1 text ++ findAll expPat2 text ++
      findAll expPat3 text ++ findAll expPat4 text with
  | [] => none
  | ms => some (maxList ms)

/-! ## Phone extraction (`ResumeParser._extract_contact_info`, lines 149-155)

Pattern: `(\+?\d{1,3}[-.\s]?)?\(?\d{3}\)?[-.\s]?\d{3}[-.\s]?\d{4}`.
The pattern has exactly one capturing group (the optional country-code
prefix), so `re.findall` returns the *group* captures, not the full
matches; an unparticipating group yields the empty string. -/

/-- Separator class `[-.\s]` of the phone pattern. -/
def isSep (c : Char) : Bool := c = '-' || c = '.' || pyIsSpace c

/-- Exactly `n` digits (`\d{n}`). -/
def matchNDigits : Nat → List Char → Option (List Char)
  | 0, cs => some cs
  | _ + 1, [] => none
  | n + 1, c :: cs => if c.isDigit then matchNDigits n cs else none

/-- Optional single character satisfying `p` (greedy `x?`; safe without
backtracking here because in the phone pattern every such character class
is disjoint from the class that follows it). -/
def optIf (p : Char → Bool) : List Char → List Char
  | [] => []
  | c :: cs => if p c then cs else c :: cs

/-- Deterministic tail of the phone pattern after the optional group:
`\(?\d{3}\)?[-.\s]?\d{3}[-.\s]?\d{4}`. -/
def phoneTail (cs : List Char) : Option (List Char) := do
  let c2 ← matchNDigits 3 (optIf (· = '(') cs)
  let c4 := optIf isSep (optIf (· = ')') c2)
  let c5 ← matchNDigits 3 c4
  matchNDigits 4 (optIf isSep c5)

/-- Alternatives for the optional group `(\+?\d{1,3}[-.\s]?)?` in regex
backtracking preference order (group matched with the longest digit run and
a trailing separator first, group unmatched last handled by the caller).
Each alternative is (captured text, remaining input). -/
def phoneGroupAlts (cs : List Char) : List (List Char × List Char) :=
  let fromDigits := fun (plus start : List Char) =>
    let ds := start.takeWhile Char.isDigit
    let r := start.dropWhile Char.isDigit
    ([3, 2, 1].filter (· ≤ ds.length)).flatMap (fun k =>
      let used := plus ++ ds.take k
      let rest := ds.drop k ++ r
      match rest with
      | c :: t => if isSep c then [(used ++ [c], t), (used, rest)] else [(used, rest)]
      | [] => [(used, [])])
  match cs with
  | '+' :: t => fromDigits ['+'] t ++ fromDigits [] cs
  | _ => fromDigits [] cs

/-- Try the group alternatives in order, falling back to the group being
unmatched (empty capture), exactly as the backtracking engine does. -/
def phoneTryAlts (cs : List Char) : List (List Char × List Char) → Option (String × List Char)
  | [] => (phoneTail cs).map (fun rest => ("", rest))
  | (cap, mid) :: more =>
    match phoneTail mid with
    | some rest => some (⟨cap⟩, rest)
    | none => phoneTryAlts cs more

/-- The whole phone pattern at one position: returns the group-1 capture
(what `re.findall` collects for a single-group pattern) and the rest of the
input after the full match. -/
def phoneMatchAt (cs : List Char) : Option (String × List Char) :=
  phoneTryAlts cs (phoneGroupAlts cs)

/-- `re.findall(phone_pattern, text)`: the list of group-1 captures. -/
def findAllPhone (text : List Char) : List String := findAll phoneMatchAt text

/-- Embedding of the phone branch of `ResumeParser._extract_contact_info`
(lines 149-155): `phones = re.findall(...)`; if nonempty, store
`phones[0]` (a string, since the pattern has a single group, so the
`isinstance(..., tuple)` join branch is dead code). -/
def extractPhone (text : List Char) : Option String :=
  match findAllPhone text with
  | [] => none
  | p :: _ => some p

/-! ## Vector index model (`backend/services/faiss_service.py`)

Floats are idealised as real numbers.  The metadata dictionary (Python
`dict` keyed by `str(vector_id)`) is modelled as an insertion-ordered
association list keyed by the numeric slot; `str` is injective on slot
numbers, so nothing is lost.  The faiss `IndexFlatIP` collaborator is
modelled by its semantics: `add` requires every row to have the index
dimension and appends the rows; `search` scores every stored vector by
inner product with the query and returns the `k` best, ordered by
decreasing score with ties broken by increasing id (deterministic
exhaustive scan of the flat index). -/

/-- Metadata record stored per slot (`faiss_service.py` lines 110-118). -/
structure MetaRecord where
  resume_id : String
  filename : String
  skills : List String
  experience_years : Option Nat
  education : List String
  sections : List (String × String)
  added_at : String
deriving DecidableEq

/-- The non-embedding fields of a `resume_data` dict passed to `add_vector`. -/
structure ResumeData where
  filename : String
  skills : List String
  experience_years : Option Nat
  education : List String
  sections : List (String × String)
  created_at : String

/-- One element of the list given to `add_vectors_batch`. -/
structure BatchItem where
  resume_id : String
  embedding : List ℝ
  filename : String
  skills : List String
  experience_years : Option Nat
  education : List String
  sections : List (String × String)
  created_at : String

def mkMeta (resume_id : String) (rd : ResumeData) : MetaRecord :=
  ⟨resume_id, rd.filename, rd.skills, rd.experience_years, rd.education,
   rd.sections, rd.created_at⟩

def itemMeta (it : BatchItem) : MetaRecord :=
  ⟨it.resume_id, it.filename, it.skills, it.experience_years, it.education,
   it.sections, it.created_at⟩

/-- In-memory state of `FAISSService`: the configured dimension, the rows
held by the flat index (in insertion order), and the metadata dict. -/
structure FAISSService where
  dimension : Nat
  vectors : List (List ℝ)
  metadata : List (Nat × MetaRecord)

/-- Dict lookup `self.metadata.get(str(idx))` / `str(idx) in self.metadata`. -/
def dictFind (m : List (Nat × MetaRecord)) (k : Nat) : Option MetaRecord :=
  match m.find? (fun p => p.1 == k) with
  | some p => some p.2
  | none => none

def dictContains (m : List (Nat × MetaRecord)) (k : Nat) : Bool :=
  (dictFind m k).isSome

/-- Dict assignment `self.metadata[str(k)] = v`: replace in place if the
key exists, else append (Python dicts preserve insertion order). -/
def dictInsert (m : List (Nat × MetaRecord)) (k : Nat) (v : MetaRecord) :
    List (Nat × MetaRecord) :=
  if dictContains m k then m.map (fun p => if p.1 == k then (k, v) else p)
  else m ++ [(k, v)]

/-- `np.dot`, on equal-length vectors. -/
def dot (a b : List ℝ) : ℝ := (List.zipWith (fun x y => x * y) a b).sum

/-- `np.linalg.norm` (L2). -/
noncomputable def l2norm (v : List ℝ) : ℝ := Real.sqrt (dot v v)

/-- `faiss.normalize_L2`: scale to unit norm, leaving the vector unchanged
when its norm is zero. -/
noncomputable def normalizeL2 (v : List ℝ) : List ℝ :=
  if l2norm v = 0 then v else v.map (fun x => x / l2norm v)

/-- faiss `IndexFlat.add`: every row must have the index dimension (the
wrapper asserts `d == self.d` before mutating anything); on success the
rows are appended after the existing ones. -/
def indexAdd (d : Nat) (vecs rows : List (List ℝ)) : Option (List (List ℝ)) :=
  if rows.all (fun r => r.length == d) then some (vecs ++ rows) else none

/-- Embedding of `FAISSService.add_vector` (lines 87-128).  The returned
pair is (state after the call, error message if a `RuntimeError` was
raised).  A shape failure happens inside `index.add` before any mutation,
so the state component is the input state in that case. -/
noncomputable def add_vector (s : FAISSService) (resume_id : String)
    (embedding : List ℝ) (rd : ResumeData) : FAISSService × Option String :=
  match indexAdd s.dimension s.vectors [normalizeL2 embedding] with
  | none => (s, some "Could not add vector to index: d == self.d")
  | some nv =>
    ({ s with vectors := nv,
              metadata := dictInsert s.metadata (nv.length - 1) (mkMeta resume_id rd) },
     none)

/-- Embedding of `FAISSService.add_vectors_batch` (lines 130-176).
`np.vstack` fails on an empty list or on rows of differing widths;
`index.add` fails when the common width is not the index dimension; both
failures occur before `self.metadata.update(metadata_batch)` and before
any row is stored, so the state is unchanged on error.  On success the
batch metadata keys are `ntotal + i` for the i-th item, inserted in batch
order. -/
noncomputable def add_vectors_batch (s : FAISSService) (items : List BatchItem) :
    FAISSService × Option String :=
  match items with
  | [] => (s, some "Could not add vectors to index: need at least one array to concatenate")
  | first :: _ =>
    if items.all (fun it => it.embedding.length == first.embedding.length) then
      match indexAdd s.dimension s.vectors (items.map (fun it => normalizeL2 it.embedding)) with
      | none => (s, some "Could not add vectors to index: d == self.d")
      | some nv =>
        ({ s with vectors := nv,
                  metadata := (items.enum.map (fun p => (s.vectors.length + p.1, itemMeta p.2))).foldl
                    (fun m kv => dictInsert m kv.1 kv.2) s.metadata },
         none)
    else (s, some "Could not add vectors to index: all the input array dimensions must match exactly")

/-- One entry of the result list built by `FAISSService.search`. -/
structure SearchResult where
  similarity_score : ℝ
  index : Nat
  meta : MetaRecord

/-- Strict comparison used by the flat-index k-selection: better score
first, ties broken by smaller id. -/
def scoreLt (x y : ℝ × Nat) : Prop := y.1 < x.1 ∨ (x.1 = y.1 ∧ x.2 < y.2)

/-- Weak version of `scoreLt`; total, used to state sortedness. -/
def scoreLe (x y : ℝ × Nat) : Prop := y.1 < x.1 ∨ (x.1 = y.1 ∧ x.2 ≤ y.2)

noncomputable def insertScored (x : ℝ × Nat) : List (ℝ × Nat) → List (ℝ × Nat)
  | [] => [x]
  | y :: ys => if y.1 < x.1 ∨ (x.1 = y.1 ∧ x.2 < y.2) then x :: y :: ys
               else y :: insertScored x ys

noncomputable def sortScored : List (ℝ × Nat) → List (ℝ × Nat)
  | [] => []
  | x :: xs => insertScored x (sortScored xs)

/-- Semantics of `faiss.IndexFlatIP.search` on a flat index holding `vecs`:
score every stored row by inner product with the query, order by
decreasing score with ties broken by increasing id, return the first `k`. -/
noncomputable def indexSearch (vecs : List (List ℝ)) (q : List ℝ) (k : Nat) :
    List (ℝ × Nat) :=
  (sortScored (vecs.enum.map (fun p => (dot q p.2, p.1)))).take k

/-- Embedding of `FAISSService.search` (lines 178-227): empty index short
circuits to `[]`; a query of the wrong width makes the faiss call raise,
caught and re-raised as `RuntimeError`; otherwise the query is normalized,
the index is searched with `min(top_k, ntotal)`, and candidates are kept
when `similarity >= threshold and str(idx) in self.metadata`. -/
noncomputable def search (s : FAISSService) (q : List ℝ) (top_k : Nat)
    (threshold : ℝ) : Except String (List SearchResult) :=
  if s.vectors.length = 0 then Except.ok []
  else if q.length ≠ s.dimension then
    Except.error "Could not perform search: d == self.d"
  else
    Except.ok ((indexSearch s.vectors (normalizeL2 q) (min top_k s.vectors.length)).filterMap
      (fun c => if threshold ≤ c.1 then
          (dictFind s.metadata c.2).map (fun m => ⟨c.1, c.2, m⟩)
        else none))

/-- Embedding of `FAISSService.delete_vector` (lines 253-265): logs a
warning and returns `False`; the state is untouched. -/
def delete_vector (s : FAISSService) (resume_id : String) : FAISSService × Bool :=
  (s, false)

/-- `FAISSService._create_new_index` restricted to the in-memory state. -/
def create_new_index (dim : Nat) : FAISSService := ⟨dim, [], []⟩

/-- Embedding of `FAISSService.rebuild_index` (lines 283-298): whether or
not metadata exists, the current implementation recreates an empty index. -/
def rebuild_index (s : FAISSService) : FAISSService :=
  if s.metadata.isEmpty then create_new_index s.dimension
  else create_new_index s.dimension

/-- Embedding of the `delete_resume` route (`api/routes.py` lines 289-306):
returns the state after `delete_vector` together with the response message. -/
def delete_resume_route (s : FAISSService) (resume_id : String) :
    FAISSService × String :=
  let r := delete_vector s resume_id
  if r.2 then (r.1, "Resume " ++ resume_id ++ " deleted successfully")
  else (r.1, "Resume " ++ resume_id ++ " not found or deletion not supported")

/-! ## Initialization from disk (`faiss_service.py` lines 24-69) -/

/-- The two persisted artifacts: the faiss index file (carrying its own
dimension and rows) and the JSON metadata file. `none` means absent. -/
structure DiskState where
  indexFile : Option (Nat × List (List ℝ))
  metadataFile : Option (List (Nat × MetaRecord))

/-- Outcome of `_initialize_index`. `failed` models an exception escaping
the method; the source catches every load exception and falls back to a
fresh index, so this constructor is never produced. -/
inductive InitOutcome where
  | loaded (vectors : List (List ℝ)) (metadata : List (Nat × MetaRecord))
  | fresh (dimension : Nat)
  | failed (msg : String)

/-- Embedding of `_load_index` (lines 55-69): reads both artifacts, raising
(`RuntimeError`) when a file is missing or unreadable. -/
def load_index (fs : DiskState) : Except String (List (List ℝ) × List (Nat × MetaRecord)) :=
  match fs.indexFile, fs.metadataFile with
  | some f, some md => Except.ok (f.2, md)
  | _, _ => Except.error "Could not load FAISS index: file not found"

/-- Embedding of `_initialize_index` (lines 24-38): load only when BOTH
files exist, otherwise create a new index; any load failure is caught and
also falls back to a new index. -/
def initialize_index (cfgDim : Nat) (fs : DiskState) : InitOutcome :=
  if fs.indexFile.isSome && fs.metadataFile.isSome then
    match load_index fs with
    | Except.ok (v, m) => InitOutcome.loaded v m
    | Except.error _ => InitOutcome.fresh cfgDim
  else InitOutcome.fresh cfgDim

/-- The claim-side notion of `load` failing (e.g. with `InconsistentState`). -/
def initFails (o : InitOutcome) : Prop := ∃ msg, o = InitOutcome.failed msg

/-! ## Cosine similarity (`embedding_service.py` lines 152-181) -/

/-- Embedding of `EmbeddingService.compute_similarity`: zero-norm inputs
yield `0.0` before any dot product is taken; `np.dot` on vectors of
different lengths raises, which the blanket handler turns into `0.0`;
otherwise the cosine is clamped into `[0, 1]` by `max(0.0, min(1.0, s))`. -/
noncomputable def compute_similarity (a b : List ℝ) : ℝ :=
  if l2norm a = 0 ∨ l2norm b = 0 then 0
  else if a.length ≠ b.length then 0
  else max 0 (min 1 (dot a b / (l2norm a * l2norm b)))

/-- Slot-density invariant of the metadata dict (§3 of the spec): the keys
are exactly `0, 1, ..., ntotal - 1` in insertion order. -/
def slotsDense (s : FAISSService) : Prop :=
  s.metadata.map Prod.fst = List.range s.vectors.length

/-! ## Concrete scenario data used by the evaluations below -/

def mExample : MetaRecord := ⟨"resume-0", "cv.pdf", [], none, [], [], ""⟩

/-- Three stored unit vectors but a metadata entry only for slot 2. -/
noncomputable def sGap : FAISSService := ⟨1, [[1], [1], [1]], [(2, mExample)]⟩

/-- One stored unit vector with its metadata entry present. -/
noncomputable def sHit : FAISSService := ⟨1, [[1]], [(0, mExample)]⟩

/-- Text on which the first experience pattern captures 3 and the third
pattern captures 10. -/
def expText : List Char := ("3 years experience and over 10 years").toList

/-- Text containing one phone number with no country-code prefix. -/
def phoneText : List Char := ("Call 555-123-4567").toList

/-! ## Arithmetic lemmas about the vector primitives -/

@[simp] lemma normalizeL2_length (v : List ℝ) : (normalizeL2 v).length = v.length := by
  unfold normalizeL2; split <;> simp

lemma zipWith_mul_self (a : List ℝ) :
    List.zipWith (fun x y => x * y) a a = a.map (fun x => x * x) := by
  induction a with
  | nil => rfl
  | cons x t ih => simp [ih]

lemma dot_self_nonneg (a : List ℝ) : 0 ≤ dot a a := by
  unfold dot
  rw [zipWith_mul_self]
  apply List.sum_nonneg
  intro x hx
  obtain ⟨y, _, rfl⟩ := List.mem_map.mp hx
  exact mul_self_nonneg y

lemma dot_cons (x y : ℝ) (xs ys : List ℝ) :
    dot (x :: xs) (y :: ys) = x * y + dot xs ys := by
  simp [dot]

lemma dot_self_pos {a : List ℝ} (h : ∃ x ∈ a, x ≠ 0) : 0 < dot a a := by
  induction a with
  | nil => simp at h
  | cons x t ih =>
    rw [dot_cons]
    rcases h with ⟨y, hy, hy0⟩
    rcases List.mem_cons.mp hy with rfl | hyt
    · exact add_pos_of_pos_of_nonneg (mul_self_pos.mpr hy0) (dot_self_nonneg t)
    · exact add_pos_of_nonneg_of_pos (mul_self_nonneg x) (ih ⟨y, hyt, hy0⟩)

lemma l2norm_nonneg (v : List ℝ) : 0 ≤ l2norm v := Real.sqrt_nonneg _

lemma l2norm_pos {a : List ℝ} (h : ∃ x ∈ a, x ≠ 0) : 0 < l2norm a :=
  Real.sqrt_pos.mpr (dot_self_pos h)

lemma l2norm_mul_self (a : List ℝ) : l2norm a * l2norm a = dot a a :=
  Real.mul_self_sqrt (dot_self_nonneg a)

/-! ## Lemmas about the k-selection order -/

lemma scoreLe_trans {x y z : ℝ × Nat} (h1 : scoreLe x y) (h2 : scoreLe y z) :
    scoreLe x z := by
  rcases h1 with h1 | ⟨e1, l1⟩ <;> rcases h2 with h2 | ⟨e2, l2⟩
  · exact Or.inl (h2.trans h1)
  · exact Or.inl (e2 ▸ h1)
  · exact Or.inl (by rw [e1]; exact h2)
  · exact Or.inr ⟨e1.trans e2, l1.trans l2⟩

lemma scoreLt_le {x y : ℝ × Nat} (h : scoreLt x y) : scoreLe x y := by
  rcases h with h | ⟨e, l⟩
  · exact Or.inl h
  · exact Or.inr ⟨e, le_of_lt l⟩

lemma not_scoreLt {x y : ℝ × Nat} (h : ¬ scoreLt x y) : scoreLe y x := by
  unfold scoreLt at h
  push_neg at h
  obtain ⟨h1, h2⟩ := h
  rcases lt_trichotomy x.1 y.1 with hlt | heq | hgt
  · exact Or.inl hlt
  · exact Or.inr ⟨heq.symm, h2 heq⟩
  · exact absurd hgt (not_lt.mpr h1)

lemma insertScored_perm (x : ℝ × Nat) (l : List (ℝ × Nat)) :
    List.Perm (insertScored x l) (x :: l) := by
  induction l with
  | nil => simp [insertScored]
  | cons y ys ih =>
    simp only [insertScored]
    split
    · exact List.Perm.refl _
    · exact (ih.cons y).trans (List.Perm.swap x y ys)

lemma sortScored_perm (l : List (ℝ × Nat)) : List.Perm (sortScored l) l := by
  induction l with
  | nil => exact List.Perm.refl _
  | cons x xs ih =>
    simp only [sortScored]
    exact (insertScored_perm x (sortScored xs)).trans (ih.cons x)

lemma pairwise_insertScored {x : ℝ × Nat} {l : List (ℝ × Nat)}
    (h : l.Pairwise scoreLe) : (insertScored x l).Pairwise scoreLe := by
  induction l with
  | nil => simp [insertScored]
  | cons y ys ih =>
    obtain ⟨hy, hys⟩ := List.pairwise_cons.mp h
    simp only [insertScored]
    split
    · rename_i hxy
      have hxy' : scoreLt x y := hxy
      refine List.pairwise_cons.mpr ⟨?_, h⟩
      intro z hz
      rcases List.mem_cons.mp hz with rfl | hzys
      · exact scoreLt_le hxy'
      · exact scoreLe_trans (scoreLt_le hxy') (hy z hzys)
    · rename_i hxy
      have hyx : scoreLe y x := not_scoreLt hxy
      refine List.pairwise_cons.mpr ⟨?_, ih hys⟩
      intro z hz
      rcases List.mem_cons.mp ((insertScored_perm x ys).mem_iff.mp hz) with rfl | hzys
      · exact hyx
      · exact hy z hzys

lemma pairwise_sortScored (l : List (ℝ × Nat)) : (sortScored l).Pairwise scoreLe := by
  induction l with
  | nil => simp [sortScored]
  | cons x xs ih =>
    simp only [sortScored]
    exact pairwise_insertScored ih

lemma scored_snd_ne (vecs : List (List ℝ)) (q : List ℝ) :
    (vecs.enum.map (fun p => (dot q p.2, p.1))).Pairwise
      (fun c d : ℝ × Nat => c.2 ≠ d.2) := by
  rw [List.pairwise_map]
  have h2 : (vecs.enum.map Prod.fst).Pairwise (fun a b : Nat => a < b) := by
    rw [List.enum_map_fst]
    exact List.pairwise_lt_range vecs.length
  exact (List.pairwise_map.mp h2).imp (fun hlt => Nat.ne_of_lt hlt)

lemma indexSearch_pairwise (vecs : List (List ℝ)) (q : List ℝ) (k : Nat) :
    (indexSearch vecs q k).Pairwise scoreLt := by
  unfold indexSearch
  set L := vecs.enum.map (fun p => (dot q p.2, p.1)) with hL
  have h1 : (sortScored L).Pairwise scoreLe := pairwise_sortScored L
  have h2 : (sortScored L).Pairwise (fun c d : ℝ × Nat => c.2 ≠ d.2) :=
    (List.Perm.pairwise_iff (fun h => Ne.symm h) (sortScored_perm L)).mpr
      (scored_snd_ne vecs q)
  have h3 : List.Pairwise scoreLt (sortScored L) := (h1.and h2).imp
    (fun hcd => by
      rcases hcd with ⟨hle | ⟨e, le⟩, hne⟩
      · exact Or.inl hle
      · exact Or.inr ⟨e, lt_of_le_of_ne le hne⟩)
  exact List.Pairwise.sublist (List.take_sublist k _) h3

lemma mem_indexSearch {vecs : List (List ℝ)} {q : List ℝ} {k : Nat} {c : ℝ × Nat}
    (h : c ∈ indexSearch vecs q k) : ∃ v ∈ vecs, c.1 = dot q v := by
  have h1 : c ∈ sortScored (vecs.enum.map (fun p => (dot q p.2, p.1))) :=
    (List.take_sublist k _).subset h
  have h2 := (sortScored_perm _).subset h1
  obtain ⟨p, hp, heq⟩ := List.mem_map.mp h2
  refine ⟨p.2, ?_, by rw [← heq]⟩
  rw [List.enum_eq_zip_range] at hp
  exact (List.of_mem_zip hp).2

/-! ## Lemmas about the metadata dict and `max` -/

lemma dictContains_eq_false {m : List (Nat × MetaRecord)} {k : Nat}
    (h : k ∉ m.map Prod.fst) : dictContains m k = false := by
  unfold dictContains dictFind
  cases hf : m.find? (fun p => p.1 == k) with
  | none => rfl
  | some p =>
    have hpk : p.1 = k := by simpa using List.find?_some hf
    exact absurd (List.mem_map.mpr ⟨p, List.mem_of_find?_eq_some hf, hpk⟩) h

lemma dictInsert_map_fst {m : List (Nat × MetaRecord)} {k : Nat} {v : MetaRecord}
    (h : k ∉ m.map Prod.fst) :
    (dictInsert m k v).map Prod.fst = m.map Prod.fst ++ [k] := by
  simp [dictInsert, dictContains_eq_false h]

lemma foldl_dictInsert_map_fst (batch : List (Nat × MetaRecord)) :
    ∀ m, (∀ kv ∈ batch, kv.1 ∉ m.map Prod.fst) →
      batch.Pairwise (fun a b => a.1 ≠ b.1) →
      (batch.foldl (fun acc kv => dictInsert acc kv.1 kv.2) m).map Prod.fst
        = m.map Prod.fst ++ batch.map Prod.fst := by
  induction batch with
  | nil => intro m _ _; simp
  | cons kv t ih =>
    intro m hb hp
    obtain ⟨hhead, htail⟩ := List.pairwise_cons.mp hp
    have h1 : kv.1 ∉ m.map Prod.fst := hb kv (List.mem_cons_self kv t)
    have hkeys := dictInsert_map_fst (v := kv.2) h1
    simp only [List.foldl_cons]
    rw [ih (dictInsert m kv.1 kv.2) ?_ htail, hkeys]
    · simp
    · intro kv' hkv' hmem
      rw [hkeys] at hmem
      rcases List.mem_append.mp hmem with hmm | hmm
      · exact hb kv' (List.mem_cons_of_mem _ hkv') hmm
      · have hk : kv'.1 = kv.1 := by simpa using hmm
        exact (hhead kv' hkv') hk.symm

lemma le_foldl_max (l : List Nat) : ∀ acc, acc ≤ l.foldl max acc := by
  induction l with
  | nil => intro acc; simp
  | cons x t ih =>
    intro acc
    simp only [List.foldl_cons]
    exact le_trans (Nat.le_max_left acc x) (ih (max acc x))

lemma mem_le_foldl_max (l : List Nat) : ∀ acc, ∀ x ∈ l, x ≤ l.foldl max acc := by
  induction l with
  | nil => simp
  | cons y t ih =>
    intro acc x hx
    simp only [List.foldl_cons]
    rcases List.mem_cons.mp hx with rfl | hxt
    · exact le_trans (Nat.le_max_right acc x) (le_foldl_max t _)
    · exact ih _ x hxt

lemma foldl_max_mem (l : List Nat) :
    ∀ acc, l.foldl max acc = acc ∨ l.foldl max acc ∈ l := by
  induction l with
  | nil => intro acc; exact Or.inl rfl
  | cons x t ih =>
    intro acc
    simp only [List.foldl_cons]
    rcases ih (max acc x) with h | h
    · rcases max_choice acc x with hm | hm
      · exact Or.inl (h.trans hm)
      · exact Or.inr (List.mem_cons.mpr (Or.inl (h.trans hm)))
    · exact Or.inr (List.mem_cons_of_mem x h)

lemma maxList_mem {l : List Nat} (h : l ≠ []) : maxList l ∈ l := by
  match l, h with
  | x :: t, _ =>
    unfold maxList
    rw [List.foldl_cons, Nat.zero_max]
    rcases foldl_max_mem t x with h2 | h2
    · rw [h2]; exact List.mem_cons_self x t
    · exact List.mem_cons_of_mem x h2

lemma le_maxList {l : List Nat} : ∀ x ∈ l, x ≤ maxList l :=
  fun x hx => mem_le_foldl_max l 0 x hx

/-! ## Claim theorems -/

/-- C9: for every resume identifier, `delete_vector` returns `False` — a
clear failure signal, never success — and leaves the vector list and the
metadata dict unchanged; consequently the `delete_resume` route always
answers with the "not found or deletion not supported" message and can
never produce the success message. -/
theorem delete_by_id_unsupported (s : FAISSService) (resume_id : String) :
    delete_vector s resume_id = (s, false) ∧
    (delete_resume_route s resume_id).1 = s ∧
    (delete_resume_route s resume_id).2
      = "Resume " ++ resume_id ++ " not found or deletion not supported" ∧
    (delete_resume_route s resume_id).2
      ≠ "Resume " ++ resume_id ++ " deleted successfully" := by
  refine ⟨rfl, rfl, rfl, ?_⟩
  intro h
  have h2 := congrArg String.length h
  simp only [delete_resume_route, delete_vector, if_neg, Bool.false_eq_true,
    not_false_eq_true, String.length_append] at h2
  have e1 : (" not found or deletion not supported" : String).length = 36 := rfl
  have e2 : (" deleted successfully" : String).length = 21 := rfl
  rw [e1, e2] at h2
  omega

/-- C3 (amended): when exactly one of the two persisted artifacts exists at
initialization time, `_initialize_index` silently creates a fresh empty
index; it does not fail (no `InconsistentState`), because loading is only
attempted when both files exist and any load failure also falls back to a
fresh index. -/
theorem initialize_one_artifact_fresh (cfgDim : Nat) (fs : DiskState)
    (h : fs.indexFile.isSome ≠ fs.metadataFile.isSome) :
    initialize_index cfgDim fs = InitOutcome.fresh cfgDim := by
  cases fs with
  | mk i m => cases i <;> cases m <;> simp_all [initialize_index, load_index]

/-- C3 counterexample: a disk state holding the vector artifact but not the
metadata artifact makes initialization proceed silently with a fresh empty
index instead of failing, contradicting the claim that it fails with
`InconsistentState`. -/
theorem initialize_one_artifact_cex :
    initialize_index 1024 ⟨some (1024, []), none⟩ = InitOutcome.fresh 1024 ∧
    ¬ initFails (initialize_index 1024 ⟨some (1024, []), none⟩) := by
  constructor
  · rfl
  · rintro ⟨msg, hmsg⟩
    simp [initialize_index, load_index] at hmsg

/-- C3 witness: the amended theorem applied to a concrete one-artifact
disk state. -/
theorem initialize_one_artifact_witness :
    ((some (1024, ([] : List (List ℝ)))).isSome
        ≠ (none : Option (List (Nat × MetaRecord))).isSome) ∧
    initialize_index 512 ⟨some (1024, []), none⟩ = InitOutcome.fresh 512 :=
  ⟨by simp, initialize_one_artifact_fresh 512 ⟨some (1024, []), none⟩ (by simp)⟩

/-- C4: appending a vector whose length differs from the configured
dimension fails (the faiss `add` wrapper asserts the shape before mutating
anything, and the service re-raises), and afterwards both the vector list
and the metadata dict are unchanged. -/
theorem add_vector_dim_mismatch (s : FAISSService) (resume_id : String)
    (embedding : List ℝ) (rd : ResumeData)
    (h : embedding.length ≠ s.dimension) :
    (add_vector s resume_id embedding rd).2.isSome = true ∧
    (add_vector s resume_id embedding rd).1 = s := by
  unfold add_vector indexAdd
  have hc : ¬ ([normalizeL2 embedding].all (fun r => r.length == s.dimension) = true) := by
    intro hc
    have h1 := List.all_eq_true.mp hc (normalizeL2 embedding)
        (List.mem_singleton.mpr rfl)
    exact h (by simpa [normalizeL2_length] using h1)
  rw [if_neg hc]
  simp

/-- C4 witness: the theorem applied to a concrete wrong-length vector. -/
theorem add_vector_dim_mismatch_witness :
    ([(1 : ℝ)].length ≠ (⟨2, [], []⟩ : FAISSService).dimension) ∧
    ((add_vector ⟨2, [], []⟩ "r1" [(1 : ℝ)] ⟨"f", [], none, [], [], ""⟩).2.isSome = true ∧
     (add_vector ⟨2, [], []⟩ "r1" [(1 : ℝ)] ⟨"f", [], none, [], [], ""⟩).1 = ⟨2, [], []⟩) :=
  ⟨by simp, add_vector_dim_mismatch ⟨2, [], []⟩ "r1" [(1 : ℝ)]
    ⟨"f", [], none, [], [], ""⟩ (by simp)⟩

/-- C5: if any single item of a batch carries a vector whose length differs
from the configured dimension, the whole batch fails (either at `np.vstack`
or at the faiss shape assertion, both before any mutation) and the state is
exactly as before the call: no prefix of the batch is committed. -/
theorem add_vectors_batch_atomic (s : FAISSService) (items : List BatchItem)
    (h : ∃ it ∈ items, it.embedding.length ≠ s.dimension) :
    (add_vectors_batch s items).2.isSome = true ∧
    (add_vectors_batch s items).1 = s := by
  obtain ⟨bad, hbad, hlen⟩ := h
  match items, hbad with
  | first :: rest, hbad =>
    simp only [add_vectors_batch]
    cases hall : (first :: rest).all
        (fun it => it.embedding.length == first.embedding.length) with
    | false => simp [hall]
    | true =>
      have hbadlen : bad.embedding.length = first.embedding.length := by
        have h1 := List.all_eq_true.mp hall bad hbad
        simpa using h1
      have hfirst : first.embedding.length ≠ s.dimension := by
        rw [← hbadlen]; exact hlen
      have hadd : indexAdd s.dimension s.vectors
          (List.map (fun it => normalizeL2 it.embedding) (first :: rest)) = none := by
        unfold indexAdd
        have hc : ¬ ((List.map (fun it => normalizeL2 it.embedding) (first :: rest)).all
            (fun r => r.length == s.dimension) = true) := by
          intro hc
          have h1 := List.all_eq_true.mp hc (normalizeL2 first.embedding)
              (List.mem_map.mpr ⟨first, List.mem_cons_self first rest, rfl⟩)
          exact hfirst (by simpa [normalizeL2_length] using h1)
        rw [if_neg hc]
      rw [if_pos rfl, hadd]
      simp

/-- C5 witness: the theorem applied to a concrete batch with one
wrong-length item. -/
theorem add_vectors_batch_atomic_witness :
    (∃ it ∈ [(⟨"r1", [(1 : ℝ)], "f", [], none, [], [], ""⟩ : BatchItem)],
        it.embedding.length ≠ (⟨2, [], []⟩ : FAISSService).dimension) ∧
    ((add_vectors_batch ⟨2, [], []⟩
        [⟨"r1", [(1 : ℝ)], "f", [], none, [], [], ""⟩]).2.isSome = true ∧
     (add_vectors_batch ⟨2, [], []⟩
        [⟨"r1", [(1 : ℝ)], "f", [], none, [], [], ""⟩]).1 = ⟨2, [], []⟩) :=
  ⟨⟨⟨"r1", [(1 : ℝ)], "f", [], none, [], [], ""⟩, by simp, by norm_num⟩,
   add_vectors_batch_atomic ⟨2, [], []⟩
     [⟨"r1", [(1 : ℝ)], "f", [], none, [], [], ""⟩]
     ⟨⟨"r1", [(1 : ℝ)], "f", [], none, [], [], ""⟩, by simp, by norm_num⟩⟩

/-! ## Slot density (C6) -/

lemma fresh_key_not_mem {s : FAISSService} (hs : slotsDense s) {k : Nat}
    (hk : s.vectors.length ≤ k) : k ∉ s.metadata.map Prod.fst := by
  rw [hs]
  simp only [List.mem_range, not_lt]
  exact hk

lemma add_vector_success {s : FAISSService} {resume_id : String}
    {embedding : List ℝ} {rd : ResumeData}
    (h : (normalizeL2 embedding).length = s.dimension) :
    add_vector s resume_id embedding rd
      = ({ s with vectors := s.vectors ++ [normalizeL2 embedding],
                  metadata := dictInsert s.metadata s.vectors.length
                    (mkMeta resume_id rd) }, none) := by
  unfold add_vector indexAdd
  rw [if_pos (by simp [h])]
  simp

lemma add_vector_failure {s : FAISSService} {resume_id : String}
    {embedding : List ℝ} {rd : ResumeData}
    (h : (normalizeL2 embedding).length ≠ s.dimension) :
    add_vector s resume_id embedding rd
      = (s, some "Could not add vector to index: d == self.d") := by
  unfold add_vector indexAdd
  rw [if_neg (by simpa using h)]

lemma batch_keys_map_fst (items : List BatchItem) (n : Nat) :
    (items.enum.map (fun p => (n + p.1, itemMeta p.2))).map Prod.fst
      = List.range' n items.length := by
  rw [List.map_map]
  have h1 : (Prod.fst ∘ fun p : Nat × BatchItem => (n + p.1, itemMeta p.2))
      = fun p : Nat × BatchItem => n + p.1 := rfl
  rw [h1, show (fun p : Nat × BatchItem => n + p.1)
      = ((fun i => n + i) ∘ Prod.fst) from rfl, ← List.map_map,
    List.enum_map_fst, List.range'_eq_map_range]

lemma batch_keys_pairwise (items : List BatchItem) (n : Nat) :
    (items.enum.map (fun p => (n + p.1, itemMeta p.2))).Pairwise
      (fun a b => a.1 ≠ b.1) := by
  rw [List.pairwise_map]
  have h2 : (items.enum.map Prod.fst).Pairwise (fun a b : Nat => a < b) := by
    rw [List.enum_map_fst]
    exact List.pairwise_lt_range items.length
  exact (List.pairwise_map.mp h2).imp (fun hlt => by omega)

/-- C6: from any state satisfying the slot-density invariant, every
operation preserves it: a successful `add_vector` grows the vector count by
one and appends exactly the slot equal to the old count (= new count minus
one), a slot never present before; a successful `add_vectors_batch`
appends exactly the fresh slots `ntotal .. ntotal + batch - 1`; failures
leave the state unchanged; and `rebuild_index` yields a fresh empty
instance, so its slots restart from zero. -/
theorem slot_invariant (s : FAISSService) (hs : slotsDense s) :
    (∀ resume_id embedding rd,
      slotsDense (add_vector s resume_id embedding rd).1 ∧
      ((add_vector s resume_id embedding rd).2 = none →
        (add_vector s resume_id embedding rd).1.metadata
          = s.metadata ++ [(s.vectors.length, mkMeta resume_id rd)] ∧
        (add_vector s resume_id embedding rd).1.vectors.length
          = s.vectors.length + 1 ∧
        dictContains s.metadata s.vectors.length = false)) ∧
    (∀ items,
      slotsDense (add_vectors_batch s items).1 ∧
      ((add_vectors_batch s items).2 = none →
        (add_vectors_batch s items).1.metadata.map Prod.fst
          = s.metadata.map Prod.fst ++ List.range' s.vectors.length items.length ∧
        ∀ k ∈ List.range' s.vectors.length items.length,
          dictContains s.metadata k = false)) ∧
    rebuild_index s = ⟨s.dimension, [], []⟩ ∧
    slotsDense (rebuild_index s) := by
  have hrebuild : rebuild_index s = ⟨s.dimension, [], []⟩ := by
    unfold rebuild_index create_new_index
    split <;> rfl
  refine ⟨?_, ?_, hrebuild, ?_⟩
  · intro resume_id embedding rd
    by_cases hdim : (normalizeL2 embedding).length = s.dimension
    · rw [add_vector_success hdim]
      have hfresh : s.vectors.length ∉ s.metadata.map Prod.fst :=
        fresh_key_not_mem hs (le_refl _)
      have hcont : dictContains s.metadata s.vectors.length = false :=
        dictContains_eq_false hfresh
      have hins : dictInsert s.metadata s.vectors.length (mkMeta resume_id rd)
          = s.metadata ++ [(s.vectors.length, mkMeta resume_id rd)] := by
        unfold dictInsert
        rw [hcont]
        simp
      constructor
      · unfold slotsDense
        simp only [hins, List.map_append, List.length_append, List.map_cons,
          List.map_nil, List.length_cons, List.length_nil]
        rw [hs, List.range_succ]
      · intro _
        exact ⟨hins, by simp, hcont⟩
    · rw [add_vector_failure hdim]
      exact ⟨hs, by simp⟩
  · intro items
    match items with
    | [] =>
      constructor
      · simpa only [add_vectors_batch] using hs
      · intro hnone
        simp only [add_vectors_batch] at hnone
        exact absurd hnone (by simp)
    | first :: rest =>
      simp only [add_vectors_batch]
      cases hall : ((first :: rest).all
          (fun it => it.embedding.length == first.embedding.length)) with
      | false =>
        constructor
        · exact hs
        · intro hnone
          exact absurd hnone (by simp)
      | true =>
        rw [if_pos rfl]
        cases hadd : indexAdd s.dimension s.vectors
            (List.map (fun it => normalizeL2 it.embedding) (first :: rest)) with
        | none =>
          constructor
          · exact hs
          · intro hnone
            exact absurd hnone (by simp)
        | some nv =>
          have hnv : nv = s.vectors
              ++ List.map (fun it => normalizeL2 it.embedding) (first :: rest) := by
            unfold indexAdd at hadd
            by_cases hc : ((List.map (fun it => normalizeL2 it.embedding)
                (first :: rest)).all (fun r => r.length == s.dimension)) = true
            · rw [if_pos hc] at hadd
              exact (Option.some_injective _ hadd).symm
            · rw [if_neg hc] at hadd
              exact absurd hadd (by simp)
          have hfreshb : ∀ kv ∈ (first :: rest).enum.map
              (fun p => (s.vectors.length + p.1, itemMeta p.2)),
              kv.1 ∉ s.metadata.map Prod.fst := by
            intro kv hkv
            obtain ⟨p, _, heq⟩ := List.mem_map.mp hkv
            have : s.vectors.length ≤ kv.1 := by
              rw [← heq]
              exact Nat.le_add_right _ _
            exact fresh_key_not_mem hs this
          have hkeys := foldl_dictInsert_map_fst
            ((first :: rest).enum.map (fun p => (s.vectors.length + p.1, itemMeta p.2)))
            s.metadata hfreshb (batch_keys_pairwise (first :: rest) s.vectors.length)
          rw [batch_keys_map_fst (first :: rest) s.vectors.length] at hkeys
          constructor
          · unfold slotsDense
            simp only [hkeys, hnv]
            rw [hs, List.length_append, List.length_map,
              List.range'_eq_map_range, List.range_add]
          · intro _
            refine ⟨hkeys, ?_⟩
            intro k hk
            have hge : s.vectors.length ≤ k := by
              have := List.mem_range'_1.mp hk
              exact this.1
            exact dictContains_eq_false (fresh_key_not_mem hs hge)
  · rw [hrebuild]
    unfold slotsDense
    simp

/-- C6 witness: the theorem applied to the empty (dense) state; the
rebuild clause is extracted. -/
theorem slot_invariant_witness :
    slotsDense ⟨4, [], []⟩ ∧
    rebuild_index ⟨4, [], []⟩ = ⟨4, [], []⟩ ∧
    slotsDense (rebuild_index ⟨4, [], []⟩) := by
  have hs : slotsDense (⟨4, [], []⟩ : FAISSService) := by
    unfold slotsDense
    simp
  have h := slot_invariant ⟨4, [], []⟩ hs
  exact ⟨hs, h.2.2.1, h.2.2.2⟩

/-- C7: `compute_similarity` always lands in `[0, 1]`; when either input
has zero L2 norm the result is exactly `0` and nothing is raised; and the
self-similarity of any vector with a non-zero component is exactly `1`
(hence ≈ 1). -/
theorem compute_similarity_contract (a b : List ℝ) :
    (0 ≤ compute_similarity a b ∧ compute_similarity a b ≤ 1) ∧
    (l2norm a = 0 ∨ l2norm b = 0 → compute_similarity a b = 0) ∧
    ((∃ x ∈ a, x ≠ 0) → compute_similarity a a = 1) := by
  refine ⟨?_, ?_, ?_⟩
  · unfold compute_similarity
    split
    · norm_num
    · split
      · norm_num
      · exact ⟨le_max_left 0 _, max_le (by norm_num) (min_le_left 1 _)⟩
  · intro h
    unfold compute_similarity
    rw [if_pos h]
  · intro h
    have hpos : 0 < dot a a := dot_self_pos h
    have hnorm : l2norm a ≠ 0 := ne_of_gt (l2norm_pos h)
    unfold compute_similarity
    rw [if_neg (by push_neg; exact ⟨hnorm, hnorm⟩), if_neg (by simp)]
    rw [l2norm_mul_self a, div_self (ne_of_gt hpos)]
    norm_num

/-- C7 witness: the self-similarity clause applied to the concrete
non-zero vector `[1]`. -/
theorem compute_similarity_witness :
    (∃ x ∈ [(1 : ℝ)], x ≠ 0) ∧ compute_similarity [(1 : ℝ)] [(1 : ℝ)] = 1 :=
  ⟨⟨1, by simp, one_ne_zero⟩,
   (compute_similarity_contract [(1 : ℝ)] [(1 : ℝ)]).2.2 ⟨1, by simp, one_ne_zero⟩⟩

/-! ## Search contract (C1, C10) -/

lemma search_result_unpack (s : FAISSService) (threshold : ℝ) (c : ℝ × Nat)
    (r : SearchResult)
    (h : (if threshold ≤ c.1 then
        (dictFind s.metadata c.2).map (fun m => (⟨c.1, c.2, m⟩ : SearchResult))
      else none) = some r) :
    r.similarity_score = c.1 ∧ r.index = c.2 ∧ threshold ≤ c.1 ∧
    (dictFind s.metadata c.2).isSome = true := by
  by_cases ht : threshold ≤ c.1
  · rw [if_pos ht] at h
    obtain ⟨m, hm, rfl⟩ := Option.map_eq_some'.mp h
    exact ⟨rfl, rfl, ht, by rw [hm]; rfl⟩
  · rw [if_neg ht] at h
    exact absurd h (by simp)

/-- C1: for every index state and every query of the configured dimension,
`search` succeeds (never errors) with at most `top_k` results, each with
similarity at least `threshold`, ordered by non-increasing similarity with
ties broken by ascending slot number; an empty index, or no stored vector
scoring at or above the threshold, yields the empty list. -/
theorem search_contract (s : FAISSService) (q : List ℝ) (top_k : Nat)
    (threshold : ℝ) (hq : q.length = s.dimension) :
    ∃ results, search s q top_k threshold = Except.ok results ∧
      results.length ≤ top_k ∧
      (∀ r ∈ results, threshold ≤ r.similarity_score) ∧
      results.Pairwise (fun a b =>
        b.similarity_score < a.similarity_score ∨
        (a.similarity_score = b.similarity_score ∧ a.index < b.index)) ∧
      (s.vectors = [] → results = []) ∧
      ((∀ v ∈ s.vectors, dot (normalizeL2 q) v < threshold) → results = []) := by
  by_cases hv : s.vectors.length = 0
  · refine ⟨[], ?_, by simp, by simp, by simp, fun _ => rfl, fun _ => rfl⟩
    unfold search
    rw [if_pos hv]
  · have hstep : search s q top_k threshold
        = Except.ok ((indexSearch s.vectors (normalizeL2 q)
            (min top_k s.vectors.length)).filterMap (fun c =>
          if threshold ≤ c.1 then
            (dictFind s.metadata c.2).map (fun m => ⟨c.1, c.2, m⟩)
          else none)) := by
      unfold search
      rw [if_neg hv, if_neg (not_ne_iff.mpr hq)]
    refine ⟨_, hstep, ?_, ?_, ?_, ?_, ?_⟩
    · calc ((indexSearch s.vectors (normalizeL2 q)
            (min top_k s.vectors.length)).filterMap _).length
          ≤ (indexSearch s.vectors (normalizeL2 q)
            (min top_k s.vectors.length)).length :=
            List.length_filterMap_le _ _
        _ ≤ min top_k s.vectors.length := by
            unfold indexSearch
            exact List.length_take_le _ _
        _ ≤ top_k := Nat.min_le_left _ _
    · intro r hr
      obtain ⟨c, _, hcr⟩ := List.mem_filterMap.mp hr
      obtain ⟨h1, _, h3, _⟩ := search_result_unpack s threshold c r hcr
      rw [h1]
      exact h3
    · refine List.Pairwise.filterMap _ ?_
        (indexSearch_pairwise s.vectors (normalizeL2 q) (min top_k s.vectors.length))
      intro a b hab ra hra rb hrb
      obtain ⟨ha1, ha2, _, _⟩ := search_result_unpack s threshold a ra hra
      obtain ⟨hb1, hb2, _, _⟩ := search_result_unpack s threshold b rb hrb
      rw [ha1, ha2, hb1, hb2]
      exact hab
    · intro hnil
      exact absurd (by simp [hnil]) hv
    · intro hbelow
      rw [List.filterMap_eq_nil_iff]
      intro c hc
      obtain ⟨v, hv2, hcv⟩ := mem_indexSearch hc
      rw [if_neg (not_le.mpr (by rw [hcv]; exact hbelow v hv2))]

/-- C1 witness: the theorem applied to the empty index with a
dimension-1 query. -/
theorem search_contract_witness :
    ([(1 : ℝ)].length = (⟨1, [], []⟩ : FAISSService).dimension) ∧
    ∃ results, search ⟨1, [], []⟩ [(1 : ℝ)] 5 0 = Except.ok results ∧
      results.length ≤ 5 ∧
      (∀ r ∈ results, (0 : ℝ) ≤ r.similarity_score) ∧
      results.Pairwise (fun a b =>
        b.similarity_score < a.similarity_score ∨
        (a.similarity_score = b.similarity_score ∧ a.index < b.index)) ∧
      ((⟨1, [], []⟩ : FAISSService).vectors = [] → results = []) ∧
      ((∀ v ∈ (⟨1, [], []⟩ : FAISSService).vectors,
          dot (normalizeL2 [(1 : ℝ)]) v < 0) → results = []) :=
  ⟨rfl, search_contract ⟨1, [], []⟩ [(1 : ℝ)] 5 0 rfl⟩

/-! ## Concrete search evaluations -/

lemma insertScored_cons_pos (x y : ℝ × Nat) (ys : List (ℝ × Nat))
    (h : scoreLt x y) : insertScored x (y :: ys) = x :: y :: ys := by
  simp only [insertScored]
  rw [if_pos (show y.1 < x.1 ∨ (x.1 = y.1 ∧ x.2 < y.2) from h)]

lemma dot_one_one : dot [(1 : ℝ)] [1] = 1 := by
  simp [dot]

lemma l2norm_one : l2norm [(1 : ℝ)] = 1 := by
  simp [l2norm, dot]

lemma normalizeL2_one : normalizeL2 [(1 : ℝ)] = [1] := by
  simp [normalizeL2, l2norm_one]

lemma indexSearch_sGap :
    indexSearch sGap.vectors (normalizeL2 [(1 : ℝ)]) (min 2 sGap.vectors.length)
      = [(1, 0), (1, 1)] := by
  rw [show sGap.vectors = [[(1 : ℝ)], [1], [1]] from rfl, normalizeL2_one]
  unfold indexSearch
  rw [show ([[(1 : ℝ)], [1], [1]]).enum
      = [(0, [(1 : ℝ)]), (1, [1]), (2, [1])] from rfl]
  simp only [List.map_cons, List.map_nil, dot_one_one]
  simp only [sortScored]
  rw [show insertScored ((1 : ℝ), 2) ([] : List (ℝ × Nat)) = [((1 : ℝ), 2)] from rfl]
  rw [insertScored_cons_pos ((1 : ℝ), 1) ((1 : ℝ), 2) []
      (Or.inr ⟨rfl, by norm_num⟩),
    insertScored_cons_pos ((1 : ℝ), 0) ((1 : ℝ), 1) [((1 : ℝ), 2)]
      (Or.inr ⟨rfl, by norm_num⟩)]
  norm_num

lemma search_sGap : search sGap [(1 : ℝ)] 2 0 = Except.ok [] := by
  unfold search
  rw [if_neg (by norm_num [sGap]), if_neg (by norm_num [sGap]), indexSearch_sGap]
  simp [dictFind, sGap, List.find?]

lemma indexSearch_sHit :
    indexSearch sHit.vectors (normalizeL2 [(1 : ℝ)]) (min 1 sHit.vectors.length)
      = [(1, 0)] := by
  rw [show sHit.vectors = [[(1 : ℝ)]] from rfl, normalizeL2_one]
  unfold indexSearch
  rw [show ([[(1 : ℝ)]]).enum = [(0, [(1 : ℝ)])] from rfl]
  simp only [List.map_cons, List.map_nil, dot_one_one]
  simp only [sortScored]
  rw [show insertScored ((1 : ℝ), 0) ([] : List (ℝ × Nat)) = [((1 : ℝ), 0)] from rfl]
  norm_num

lemma search_sHit :
    search sHit [(1 : ℝ)] 1 0 = Except.ok [⟨1, 0, mExample⟩] := by
  unfold search
  rw [if_neg (by norm_num [sHit]), if_neg (by norm_num [sHit]), indexSearch_sHit]
  have hfind : dictFind sHit.metadata 0 = some mExample := rfl
  simp [hfind]

/-- C10: a candidate returned by the underlying index search reaches the
result list only when the metadata dict contains its slot (first conjunct,
for every state, query and parameters); and a concrete state with three
stored vectors, all scoring at or above the threshold, but a metadata
entry only for the slot that the top-2 selection does not reach, makes
`search` return fewer results than `top_k` — dropped candidates are not
backfilled (second conjunct). -/
theorem search_requires_metadata :
    (∀ (s : FAISSService) (q : List ℝ) (k : Nat) (t : ℝ) results r,
        search s q k t = Except.ok results → r ∈ results →
        dictContains s.metadata r.index = true) ∧
    (∃ (s : FAISSService) (q : List ℝ) (k : Nat) (t : ℝ)
        (results : List SearchResult),
        search s q k t = Except.ok results ∧
        k < s.vectors.length ∧
        (∀ v ∈ s.vectors, t ≤ dot (normalizeL2 q) v) ∧
        results.length < k) := by
  constructor
  · intro s q k t results r hok hr
    unfold search at hok
    by_cases hv : s.vectors.length = 0
    · rw [if_pos hv] at hok
      have h0 : ([] : List SearchResult) = results := Except.ok.inj hok
      rw [← h0] at hr
      exact absurd hr (by simp)
    · rw [if_neg hv] at hok
      by_cases hd : q.length ≠ s.dimension
      · rw [if_pos hd] at hok
        exact absurd hok (by simp)
      · rw [if_neg hd] at hok
        have h0 := Except.ok.inj hok
        rw [← h0] at hr
        obtain ⟨c, _, hcr⟩ := List.mem_filterMap.mp hr
        obtain ⟨_, h2, _, h4⟩ := search_result_unpack s t c r hcr
        rw [dictContains, h2]
        exact h4
  · refine ⟨sGap, [(1 : ℝ)], 2, 0, [], search_sGap, by norm_num [sGap], ?_, by norm_num⟩
    intro v hv2
    have hv1 : v = [(1 : ℝ)] := by
      have : v ∈ [[(1 : ℝ)], [1], [1]] := hv2
      simp only [List.mem_cons, List.mem_singleton, List.not_mem_nil, or_false] at this
      rcases this with h | h | h <;> exact h
    rw [hv1, normalizeL2_one, dot_one_one]
    norm_num

/-- C10 witness: the metadata-presence conjunct applied to a concrete
search whose single result occupies slot 0. -/
theorem search_requires_metadata_witness :
    dictContains sHit.metadata 0 = true :=
  search_requires_metadata.1 sHit [(1 : ℝ)] 1 0 [⟨1, 0, mExample⟩]
    ⟨1, 0, mExample⟩ search_sHit (by simp)

/-! ## Experience-years extraction (C2) -/

/-- C2 (amended): experience extraction tries the four patterns in order
and returns the maximum numeric capture of the FIRST pattern that matches
anywhere in the text; patterns after the first matching one are not
consulted, so a larger capture of a later pattern is ignored.  When no
pattern matches, the result is `none`, not zero. -/
theorem experience_first_pattern_max (text : List Char) :
    (extract_experience_years text = none ↔
      findAll expPat1 text = [] ∧ findAll expPat2 text = [] ∧
      findAll expPat3 text = [] ∧ findAll expPat4 text = []) ∧
    (findAll expPat1 text ≠ [] →
      extract_experience_years text = some (maxList (findAll expPat1 text)) ∧
      maxList (findAll expPat1 text) ∈ findAll expPat1 text ∧
      ∀ u ∈ findAll expPat1 text, u ≤ maxList (findAll expPat1 text)) ∧
    (findAll expPat1 text = [] → findAll expPat2 text ≠ [] →
      extract_experience_years text = some (maxList (findAll expPat2 text)) ∧
      maxList (findAll expPat2 text) ∈ findAll expPat2 text ∧
      ∀ u ∈ findAll expPat2 text, u ≤ maxList (findAll expPat2 text)) ∧
    (findAll expPat1 text = [] → findAll expPat2 text = [] →
      findAll expPat3 text ≠ [] →
      extract_experience_years text = some (maxList (findAll expPat3 text)) ∧
      maxList (findAll expPat3 text) ∈ findAll expPat3 text ∧
      ∀ u ∈ findAll expPat3 text, u ≤ maxList (findAll expPat3 text)) ∧
    (findAll expPat1 text = [] → findAll expPat2 text = [] →
      findAll expPat3 text = [] → findAll expPat4 text ≠ [] →
      extract_experience_years text = some (maxList (findAll expPat4 text)) ∧
      maxList (findAll expPat4 text) ∈ findAll expPat4 text ∧
      ∀ u ∈ findAll expPat4 text, u ≤ maxList (findAll expPat4 text)) := by
  have hc1 : findAll expPat1 text ≠ [] →
      extract_experience_years text = some (maxList (findAll expPat1 text)) := by
    intro h
    obtain ⟨a, t, h1⟩ := List.exists_cons_of_ne_nil h
    unfold extract_experience_years
    rw [h1]
  have hc2 : findAll expPat1 text = [] → findAll expPat2 text ≠ [] →
      extract_experience_years text = some (maxList (findAll expPat2 text)) := by
    intro h1 h
    obtain ⟨a, t, h2⟩ := List.exists_cons_of_ne_nil h
    unfold extract_experience_years
    rw [h1, h2]
  have hc3 : findAll expPat1 text = [] → findAll expPat2 text = [] →
      findAll expPat3 text ≠ [] →
      extract_experience_years text = some (maxList (findAll expPat3 text)) := by
    intro h1 h2 h
    obtain ⟨a, t, h3⟩ := List.exists_cons_of_ne_nil h
    unfold extract_experience_years
    rw [h1, h2, h3]
  have hc4 : findAll expPat1 text = [] → findAll expPat2 text = [] →
      findAll expPat3 text = [] → findAll expPat4 text ≠ [] →
      extract_experience_years text = some (maxList (findAll expPat4 text)) := by
    intro h1 h2 h3 h
    obtain ⟨a, t, h4⟩ := List.exists_cons_of_ne_nil h
    unfold extract_experience_years
    rw [h1, h2, h3, h4]
  refine ⟨⟨?_, ?_⟩,
    fun h => ⟨hc1 h, maxList_mem h, le_maxList⟩,
    fun h1 h => ⟨hc2 h1 h, maxList_mem h, le_maxList⟩,
    fun h1 h2 h => ⟨hc3 h1 h2 h, maxList_mem h, le_maxList⟩,
    fun h1 h2 h3 h => ⟨hc4 h1 h2 h3 h, maxList_mem h, le_maxList⟩⟩
  · intro hnone
    have e1 : findAll expPat1 text = [] := by
      by_contra hne
      rw [hc1 hne] at hnone
      exact absurd hnone (by simp)
    have e2 : findAll expPat2 text = [] := by
      by_contra hne
      rw [hc2 e1 hne] at hnone
      exact absurd hnone (by simp)
    have e3 : findAll expPat3 text = [] := by
      by_contra hne
      rw [hc3 e1 e2 hne] at hnone
      exact absurd hnone (by simp)
    have e4 : findAll expPat4 text = [] := by
      by_contra hne
      rw [hc4 e1 e2 e3 hne] at hnone
      exact absurd hnone (by simp)
    exact ⟨e1, e2, e3, e4⟩
  · rintro ⟨e1, e2, e3, e4⟩
    unfold extract_experience_years
    rw [e1, e2, e3, e4]

/-- C2 counterexample: on `expText` the source returns the maximum of the
FIRST pattern's captures (3) while the spec-modelled collect-all-patterns
maximum is 10; the two disagree, refuting the claim that all patterns are
collected. -/
theorem experience_not_all_patterns_cex :
    extract_experience_years expText = some 3 ∧
    specExperienceAllPatternsMax expText = some 10 ∧
    extract_experience_years expText ≠ specExperienceAllPatternsMax expText := by
  refine ⟨by decide, by decide, by decide⟩

/-- C2 witness: the amended theorem applied to `expText`, on which the
first pattern matches. -/
theorem experience_first_pattern_witness :
    findAll expPat1 expText ≠ [] ∧
    (extract_experience_years expText
        = some (maxList (findAll expPat1 expText)) ∧
      maxList (findAll expPat1 expText) ∈ findAll expPat1 expText ∧
      ∀ u ∈ findAll expPat1 expText, u ≤ maxList (findAll expPat1 expText)) :=
  ⟨by decide, (experience_first_pattern_max expText).2.1 (by decide)⟩

/-! ## Phone capture (C8) -/

/-- C8: evaluating the embedded phone extraction at the failing input
`"Call 555-123-4567"`: `re.findall` on the single-group pattern yields the
group capture, so the stored phone value is the empty string — not the
digits `"5551234567"` of the full matched number. -/
theorem phone_stores_group_capture :
    findAllPhone phoneText = [""] ∧
    extractPhone phoneText = some "" ∧
    extractPhone phoneText ≠ some "5551234567" := by
  refine ⟨by decide, by decide, by decide⟩

end AiRecruiter
